import Mathlib

/-!
Verification of the rust-sqlite storage engine (a single-table B+Tree over
4096-byte pages).  The definitions below are a shallow embedding of the
repository's source files: `row.rs` (fixed-shape rows), `node.rs` (leaf and
internal page views), `pager.rs` (the bounded page cache), `cursor.rs`
(search and leaf insertion/split) and `table.rs` (internal-node insertion
and splits).  Machine integers are modelled as `Nat` (all the u32 values
involved stay far from overflow on the examined paths; where the source
performs wrapping-sensitive arithmetic this is noted at the definition).
Fallible code paths (Rust panics, the unimplemented `todo!` arm, and the
not-expanded split delegation) are modelled with `Option`, `none` standing
for an abort.
-/

/-! ## Layout constants (node.rs, row.rs, pager.rs) -/

def PAGE_SIZE : Nat := 4096
def TABLE_MAX_PAGES : Nat := 100
def ID_SIZE : Nat := 4
def USERNAME_SIZE : Nat := 32
def EMAIL_SIZE : Nat := 255
def ROW_SIZE : Nat := ID_SIZE + USERNAME_SIZE + EMAIL_SIZE
def COMMON_NODE_HEADER_SIZE : Nat := 1 + 1 + 4
def LEAF_NODE_HEADER_SIZE : Nat := COMMON_NODE_HEADER_SIZE + 4 + 4
def LEAF_NODE_CELL_SIZE : Nat := 4 + ROW_SIZE
def LEAF_NODE_SPACE_FOR_CELLS : Nat := PAGE_SIZE - LEAF_NODE_HEADER_SIZE
def LEAF_NODE_MAX_CELLS : Nat := LEAF_NODE_SPACE_FOR_CELLS / LEAF_NODE_CELL_SIZE
def LEAF_NODE_RIGHT_SPLIT_COUNT : Nat := (LEAF_NODE_MAX_CELLS + 1) / 2
def LEAF_NODE_LEFT_SPLIT_COUNT : Nat :=
  (LEAF_NODE_MAX_CELLS + 1) - LEAF_NODE_RIGHT_SPLIT_COUNT
def INTERNAL_NODE_MAX_CELLS : Nat := 3

/-- Modelled from the spec: `INVALID_PAGE_NUM` is imported by `table.rs` from
`pager.rs` but its definition is absent from the repository's `src/pager.rs`;
the spec (§4.2, Glossary) fixes the sentinel at `u32::MAX`. -/
def INVALID_PAGE_NUM : Nat := 2 ^ 32 - 1

/-! ## Rows (row.rs)

A `Row` is a 4-byte little-endian id, a 32-byte username and a 255-byte
email.  Byte buffers are `List Nat` with each entry below 256. -/

structure Row where
  id : Nat
  username : List Nat
  email : List Nat
  deriving DecidableEq, Repr

/-- `u32::to_le_bytes`. -/
def u32ToLeBytes (n : Nat) : List Nat :=
  [n % 256, n / 256 % 256, n / 65536 % 256, n / 16777216 % 256]

/-- `u32::from_le_bytes`. -/
def leBytesToU32 (l : List Nat) : Nat :=
  l.foldr (fun b acc => b + 256 * acc) 0

/-- `Row::serialize` (row.rs lines 49-65): id bytes at 0..4, username at
4..36, email at 36..291. -/
def Row.serialize (r : Row) : List Nat :=
  u32ToLeBytes r.id ++ r.username ++ r.email

/-- `Row::deserialize` (row.rs lines 67-90). -/
def Row.deserialize (b : List Nat) : Row :=
  { id := leBytesToU32 (b.take ID_SIZE)
    username := (b.drop ID_SIZE).take USERNAME_SIZE
    email := (b.drop (ID_SIZE + USERNAME_SIZE)).take EMAIL_SIZE }

lemma take_length_append {α : Type} (l₁ l₂ : List α) :
    (l₁ ++ l₂).take l₁.length = l₁ := by
  induction l₁ with
  | nil => simp
  | cons a t ih => simp [ih]

lemma drop_length_append {α : Type} (l₁ l₂ : List α) :
    (l₁ ++ l₂).drop l₁.length = l₂ := by
  induction l₁ with
  | nil => simp
  | cons a t ih => simp [ih]

lemma leBytes_u32_round (n : Nat) (h : n < 2 ^ 32) :
    leBytesToU32 (u32ToLeBytes n) = n := by
  simp only [u32ToLeBytes, leBytesToU32, List.foldr]
  omega

lemma u32_leBytes_round (a b c d : Nat)
    (ha : a < 256) (hb : b < 256) (hc : c < 256) (hd : d < 256) :
    u32ToLeBytes (leBytesToU32 [a, b, c, d]) = [a, b, c, d] := by
  simp only [u32ToLeBytes, leBytesToU32, List.foldr, List.cons.injEq, and_true]
  refine ⟨?_, ?_, ?_, ?_⟩ <;> omega

/-- C9.  Row serialization round-trips: for a well-formed row,
`deserialize (serialize r)` returns `r` field for field, and for any
291-byte buffer `b` of bytes, `serialize (deserialize b) = b`; the id
occupies bytes 0..4 little-endian, the username bytes 4..36 and the email
bytes 36..291. -/
theorem row_serialize_round_trip (r : Row) (b : List Nat)
    (hid : r.id < 2 ^ 32)
    (hu : r.username.length = USERNAME_SIZE)
    (he : r.email.length = EMAIL_SIZE)
    (hb : b.length = ROW_SIZE)
    (hbytes : ∀ x ∈ b, x < 256) :
    Row.deserialize r.serialize = r ∧ (Row.deserialize b).serialize = b := by
  constructor
  · obtain ⟨id, u, e⟩ := r
    simp only [USERNAME_SIZE] at hu
    simp only [EMAIL_SIZE] at he
    simp only [Row.serialize, Row.deserialize, ID_SIZE, USERNAME_SIZE, EMAIL_SIZE] at *
    have h4 : (u32ToLeBytes id).length = 4 := rfl
    rw [List.append_assoc, Row.mk.injEq]
    constructor
    · rw [← h4, take_length_append, leBytes_u32_round id hid]
    constructor
    · rw [← h4, drop_length_append, ← hu, take_length_append]
    · rw [← List.append_assoc,
        show (4 + 32 : Nat) = ((u32ToLeBytes id ++ u).length) by
          simp [u32ToLeBytes, hu],
        drop_length_append, ← he, List.take_length]
  · match b, hb with
    | b0 :: b1 :: b2 :: b3 :: rest, hb =>
      simp only [ROW_SIZE, ID_SIZE, USERNAME_SIZE, EMAIL_SIZE, List.length_cons] at hb
      have hrest : rest.length = 287 := by omega
      have h0 : b0 < 256 := hbytes b0 (by simp)
      have h1 : b1 < 256 := hbytes b1 (by simp)
      have h2 : b2 < 256 := hbytes b2 (by simp)
      have h3 : b3 < 256 := hbytes b3 (by simp)
      simp only [Row.serialize, Row.deserialize, ID_SIZE, USERNAME_SIZE, EMAIL_SIZE]
      have htake : (b0 :: b1 :: b2 :: b3 :: rest).take 4 = [b0, b1, b2, b3] := rfl
      have hdrop4 : (b0 :: b1 :: b2 :: b3 :: rest).drop 4 = rest := rfl
      have hdrop36 : (b0 :: b1 :: b2 :: b3 :: rest).drop (4 + 32) = rest.drop 32 := by
        simp [List.drop]
      rw [htake, hdrop4, hdrop36, u32_leBytes_round b0 b1 b2 b3 h0 h1 h2 h3]
      have hemail : (rest.drop 32).take 255 = rest.drop 32 := by
        apply List.take_of_length_le
        simp [hrest]
      rw [hemail, List.append_assoc, List.take_append_drop]
      rfl

/-! ## Nodes (node.rs)

`Node` mirrors the enum of node.rs: a leaf page holds up to 13 key/row
cells and a sibling pointer, an internal page holds up to 3 child/key
cells plus a right-child pointer.  Cell arrays are modelled as total
functions `Nat → _`; every index the examined code uses stays below the
fixed capacity (13 resp. 3), so Rust's out-of-bounds panic is never the
deciding behaviour and is not tracked. -/

structure LeafCell where
  key : Nat
  value : Row
  deriving DecidableEq

structure LeafPage where
  isRoot : Bool
  parent : Nat
  numCells : Nat
  nextLeaf : Nat
  cells : Nat → LeafCell

structure InternalCell where
  child : Nat
  key : Nat
  deriving DecidableEq

structure InternalPage where
  isRoot : Bool
  parent : Nat
  numKeys : Nat
  rightChild : Nat
  cells : Nat → InternalCell

inductive Node where
  | leaf (l : LeafPage)
  | internal (p : InternalPage)

/-- The all-zero row (`LeafNodeCell::new` deserializes a zeroed buffer). -/
def zeroRow : Row :=
  { id := 0, username := List.replicate USERNAME_SIZE 0
    email := List.replicate EMAIL_SIZE 0 }

/-- `Node::initialize_leaf_node` (node.rs lines 148-160); also the content
of a freshly zeroed page frame read through the leaf accessors. -/
def initLeafNode : LeafPage :=
  { isRoot := false, parent := 0, numCells := 0, nextLeaf := 0
    cells := fun _ => { key := 0, value := zeroRow } }

/-- `Node::initialize_internal_node` (node.rs lines 162-174).  Note that
the source sets `right_child_pointer: 0`, not the `INVALID_PAGE_NUM`
sentinel. -/
def initInternalNode : InternalPage :=
  { isRoot := false, parent := 0, numKeys := 0, rightChild := 0
    cells := fun _ => { child := 0, key := 0 } }

/-- C2.  `initialize_internal_node` returns `is_root = false` and
`num_keys = 0` as claimed, but its `right_child` is 0, not the
`u32::MAX` sentinel `INVALID_PAGE_NUM` that `internal_node_insert`
(table.rs line 123) tests for when accepting an empty internal node's
first child: the claimed postcondition `right_child = u32::MAX` fails on
every call. -/
theorem initialize_internal_node_right_child :
    initInternalNode.isRoot = false ∧ initInternalNode.numKeys = 0 ∧
    initInternalNode.rightChild = 0 ∧
    initInternalNode.rightChild ≠ INVALID_PAGE_NUM := by
  refine ⟨rfl, rfl, rfl, ?_⟩
  decide

/-! ## Internal-node child search (node.rs lines 329-348)

`internal_node_find_child` binary-searches the internal node's keys for
the smallest index whose key is at least the probe.  The `while` loop is
embedded with a fuel argument; each pass strictly shrinks `hi - lo`, so
any fuel above `hi - lo` reproduces the loop exactly (callers pass
`num_keys + 1`). -/

def findChildGo (kf : Nat → Nat) (key : Nat) : Nat → Nat → Nat → Nat
  | 0, lo, _ => lo
  | fuel + 1, lo, hi =>
    if lo = hi then lo
    else
      let mid := (lo + hi) / 2
      if kf mid ≥ key then findChildGo kf key fuel lo mid
      else findChildGo kf key fuel (mid + 1) hi

/-- `Node::internal_node_find_child`: binary search over
`[0, num_keys]`, one more child than keys. -/
def internalNodeFindChild (numKeys : Nat) (kf : Nat → Nat) (key : Nat) : Nat :=
  findChildGo kf key (numKeys + 1) 0 numKeys

lemma findChildGo_spec (kf : Nat → Nat) (key numKeys : Nat)
    (hsorted : ∀ i j, i < j → j < numKeys → kf i < kf j) :
    ∀ fuel lo hi, hi - lo < fuel → lo ≤ hi → hi ≤ numKeys →
      (∀ j, j < lo → kf j < key) →
      (∀ j, hi ≤ j → j < numKeys → key ≤ kf j) →
      lo ≤ findChildGo kf key fuel lo hi ∧
      findChildGo kf key fuel lo hi ≤ hi ∧
      (∀ j, j < findChildGo kf key fuel lo hi → kf j < key) ∧
      (findChildGo kf key fuel lo hi < numKeys →
        key ≤ kf (findChildGo kf key fuel lo hi)) := by
  intro fuel
  induction fuel with
  | zero => intro lo hi hf; omega
  | succ fuel ih =>
    intro lo hi hf hle hhi hlow hhigh
    by_cases heq : lo = hi
    · subst heq
      simp only [findChildGo, if_pos rfl]
      exact ⟨le_refl _, le_refl _, hlow, fun h => hhigh lo (le_refl _) h⟩
    · have hlt : lo < hi := lt_of_le_of_ne hle heq
      have hmid_lo : lo ≤ (lo + hi) / 2 := by omega
      have hmid_hi : (lo + hi) / 2 < hi := by omega
      simp only [findChildGo, if_neg heq]
      by_cases hcmp : kf ((lo + hi) / 2) ≥ key
      · simp only [if_pos hcmp]
        have hhigh' : ∀ j, (lo + hi) / 2 ≤ j → j < numKeys → key ≤ kf j := by
          intro j hj hjn
          rcases eq_or_lt_of_le hj with h | h
          · rw [← h]; exact hcmp
          · exact le_trans hcmp (le_of_lt (hsorted _ _ h hjn))
        have := ih lo ((lo + hi) / 2) (by omega) hmid_lo (by omega) hlow hhigh'
        exact ⟨this.1, le_trans this.2.1 (le_of_lt hmid_hi), this.2.2⟩
      · simp only [if_neg hcmp]
        push_neg at hcmp
        have hlow' : ∀ j, j < (lo + hi) / 2 + 1 → kf j < key := by
          intro j hj
          rcases Nat.lt_succ_iff_lt_or_eq.mp hj with h | h
          · exact lt_trans (hsorted j _ h (by omega)) hcmp
          · rw [h]; exact hcmp
        have := ih ((lo + hi) / 2 + 1) hi (by omega) (by omega) hhi hlow' hhigh
        exact ⟨le_trans (Nat.le_succ_of_le hmid_lo) this.1, this.2.1, this.2.2⟩

/-- C8.  For an internal node whose stored keys are strictly ascending,
`internal_node_find_child k` returns the smallest index `i` in
`[0, num_keys]` with `key(i) ≥ k`: every index below the result holds a
key below `k`, the result's own key (when the result is below
`num_keys`) is at least `k`, and the result is `num_keys` exactly when
`k` exceeds every stored key. -/
theorem internal_node_find_child_lower_bound (numKeys : Nat) (kf : Nat → Nat)
    (key : Nat) (hsorted : ∀ i j, i < j → j < numKeys → kf i < kf j) :
    internalNodeFindChild numKeys kf key ≤ numKeys ∧
    (∀ j, j < internalNodeFindChild numKeys kf key → kf j < key) ∧
    (internalNodeFindChild numKeys kf key < numKeys →
      key ≤ kf (internalNodeFindChild numKeys kf key)) := by
  have := findChildGo_spec kf key numKeys hsorted (numKeys + 1) 0 numKeys
    (by omega) (Nat.zero_le _) (le_refl _)
    (fun j hj => absurd hj (Nat.not_lt_zero j))
    (fun j hj hjn => absurd (lt_of_le_of_lt hj hjn) (lt_irrefl _))
  exact ⟨this.2.1, this.2.2.1, this.2.2.2⟩

/-- Witness for C8 at a concrete node: keys `[3, 7]`, probe 5 lands at
index 1. -/
theorem internal_node_find_child_witness :
    (∀ i j, i < j → j < 2 → (if i = 0 then 3 else 7) < (if j = 0 then 3 else 7)) ∧
    internalNodeFindChild 2 (fun i => if i = 0 then 3 else 7) 5 ≤ 2 ∧
    (∀ j, j < internalNodeFindChild 2 (fun i => if i = 0 then 3 else 7) 5 →
      (if j = 0 then 3 else 7) < 5) ∧
    (internalNodeFindChild 2 (fun i => if i = 0 then 3 else 7) 5 < 2 →
      5 ≤ (if internalNodeFindChild 2 (fun i => if i = 0 then 3 else 7) 5 = 0
        then 3 else 7)) := by
  have hsorted : ∀ i j, i < j → j < 2 →
      (if i = 0 then 3 else 7) < (if j = 0 then (3 : Nat) else 7) := by
    intro i j hij hj
    have hj1 : j = 1 := by omega
    have hi0 : i = 0 := by omega
    rw [hj1, hi0]
    decide
  exact ⟨hsorted,
    internal_node_find_child_lower_bound 2 (fun i => if i = 0 then 3 else 7) 5 hsorted⟩

/-! ## Pager (pager.rs)

The pager holds the open file (modelled as a page-indexed content map
`file`, reads assumed to succeed — the claims exclude OS I/O failures),
the file length, `num_pages`, and the cache `pages` as the list of frames
loaded so far (`Vec<Node>` in the source).  `get_page` mirrors pager.rs
lines 58-100: `validate_page_num` panics when `page_num > TABLE_MAX_PAGES`
(note: strictly greater); on a cache miss the source pushes one frame and
then indexes `pages[page_num]`, which panics whenever `page_num` exceeds
the new length — both panics are `none` here. -/

structure Pager where
  file : Nat → Node
  fileLength : Nat
  numPages : Nat
  pages : List Node

/-- `Pager::get_page` (pager.rs lines 67-100), including
`validate_page_num` (lines 58-65). -/
def Pager.getPage (st : Pager) (n : Nat) : Option (Pager × Node) :=
  if TABLE_MAX_PAGES < n then none
  else if h : n < st.pages.length then some (st, st.pages.get ⟨n, h⟩)
  else if st.pages.length < n then none
  else
    let numPagesOnDisk := st.fileLength / PAGE_SIZE +
      (if st.fileLength % PAGE_SIZE ≠ 0 then 1 else 0)
    let frame := if n ≤ numPagesOnDisk then st.file n else Node.leaf initLeafNode
    some ({ st with
            pages := st.pages ++ [frame]
            numPages := if st.numPages ≤ n then n + 1 else st.numPages }, frame)

/-- C4 (amended).  `get_page(n)` aborts exactly when `n > 100` (the
bounds check uses strict greater-than, so `n = 100` is admitted) or when
`n` exceeds the number of cached frames (the cache-miss path pushes a
single frame and then indexes `pages[n]`); for sequentially filled
caches this means every `n ≤ 100` succeeds and `n = 100` in particular
does not abort. -/
theorem get_page_aborts_iff (st : Pager) (n : Nat) :
    Pager.getPage st n = none ↔ (TABLE_MAX_PAGES < n ∨ st.pages.length < n) := by
  unfold Pager.getPage
  split_ifs with h1 h2 h3 <;> simp <;> omega

/-- An empty pager cache (fresh process, nothing loaded). -/
def pagerEmpty : Pager :=
  { file := fun _ => Node.leaf initLeafNode, fileLength := 0, numPages := 0
    pages := [] }

/-- A pager whose cache already holds 100 frames. -/
def pagerFull : Pager :=
  { file := fun _ => Node.leaf initLeafNode, fileLength := 0, numPages := 100
    pages := List.replicate 100 (Node.leaf initLeafNode) }

/-- C4 counterexample.  The claim "get_page(n) aborts iff n ≥ 100" fails
in both directions: `get_page(1)` on a fresh pager aborts although
`1 < 100` (the cache-miss path indexes past the single pushed frame),
and `get_page(100)` on a pager with 100 cached frames succeeds although
`100 ≥ 100` (the bounds check is `n > 100`). -/
theorem get_page_bound_counterexample :
    (Pager.getPage pagerEmpty 1).isSome = false ∧ (1 : Nat) < 100 ∧
    (Pager.getPage pagerFull 100).isSome = true ∧ (100 : Nat) ≥ 100 := by
  refine ⟨rfl, by decide, ?_, by decide⟩
  decide

/-! ## Cursor search (cursor.rs)

`table_find` descends from the root: internal nodes are searched with the
same binary search as `internal_node_find_child` and the chosen child is
visited after its node type is checked; a leaf is searched with the
early-exit binary search of `leaf_node_find`.  The recursion over child
pages carries fuel (`none` = fuel exhausted); `leaf_node_find`'s loop
again gets fuel `num_cells + 1`, enough for any run. -/

structure Cursor where
  pageNum : Nat
  cellNum : Nat
  endOfTable : Bool
  deriving DecidableEq, Repr

/-- The binary-search loop of `Cursor::leaf_node_find` (cursor.rs lines
56-79): early exit on an exact key match, otherwise the least insertion
position. -/
def leafFindGo (lc : Nat → LeafCell) (key : Nat) : Nat → Nat → Nat → Nat
  | 0, lo, _ => lo
  | fuel + 1, lo, hi =>
    if lo = hi then lo
    else
      let mid := (lo + hi) / 2
      if key = (lc mid).key then mid
      else if key < (lc mid).key then leafFindGo lc key fuel lo mid
      else leafFindGo lc key fuel (mid + 1) hi

/-- `Cursor::leaf_node_find` (cursor.rs lines 49-87); always returns
`end_of_table = false`.  Callers only reach it after checking the page is
a leaf, so the non-leaf arm (a panicking accessor) is `none`. -/
def leafNodeFind (pages : Nat → Node) (pageNum key : Nat) : Option Cursor :=
  match pages pageNum with
  | .leaf L =>
    some { pageNum := pageNum
           cellNum := leafFindGo L.cells key (L.numCells + 1) 0 L.numCells
           endOfTable := false }
  | .internal _ => none

/-- `Node::internal_node_child` (node.rs lines 261-274): cell `i`'s child
pointer for `i < num_keys`, the right child for `i = num_keys`, and a
panic (`none`) past that. -/
def internalNodeChild (P : InternalPage) (i : Nat) : Option Nat :=
  if P.numKeys < i then none
  else if i = P.numKeys then some P.rightChild
  else some (P.cells i).child

/-- `Cursor::internal_node_find` (cursor.rs lines 89-124): find the child
slot for the key, fetch the child, and recurse according to its type. -/
def internalNodeFind (pages : Nat → Node) : Nat → Nat → Nat → Option Cursor
  | 0, _, _ => none
  | fuel + 1, pageNum, key =>
    match pages pageNum with
    | .leaf _ => none
    | .internal P =>
      match internalNodeChild P
          (internalNodeFindChild P.numKeys (fun j => (P.cells j).key) key) with
      | none => none
      | some childNum =>
        match pages childNum with
        | .leaf _ => leafNodeFind pages childNum key
        | .internal _ => internalNodeFind pages fuel childNum key

/-- `Cursor::table_find` (cursor.rs lines 38-47). -/
def tableFind (fuel : Nat) (pages : Nat → Node) (rootPageNum key : Nat) :
    Option Cursor :=
  match pages rootPageNum with
  | .leaf _ => leafNodeFind pages rootPageNum key
  | .internal _ => internalNodeFind pages fuel rootPageNum key

/-- `Cursor::table_start` (cursor.rs lines 19-33): find key 0, read the
landing leaf's `num_cells`, find key 0 again and flag `end_of_table`
exactly when that leaf is empty. -/
def tableStart (fuel : Nat) (pages : Nat → Node) (rootPageNum : Nat) :
    Option Cursor :=
  match tableFind fuel pages rootPageNum 0 with
  | none => none
  | some c =>
    match pages c.pageNum with
    | .internal _ => none
    | .leaf L =>
      match tableFind fuel pages rootPageNum 0 with
      | none => none
      | some c2 => some { c2 with endOfTable := L.numCells == 0 }

/-- `Cursor::advance` (cursor.rs lines 132-155): step to the next cell;
past the last cell follow `next_leaf`, and flag `end_of_table` only when
the sibling pointer is 0 (the rightmost leaf). -/
def cursorAdvance (pages : Nat → Node) (c : Cursor) : Option Cursor :=
  match pages c.pageNum with
  | .internal _ => none
  | .leaf L =>
    let cellNum := c.cellNum + 1
    if L.numCells ≤ cellNum then
      if L.nextLeaf = 0 then
        some { c with cellNum := cellNum, endOfTable := true }
      else
        some { pageNum := L.nextLeaf, cellNum := 0, endOfTable := c.endOfTable }
    else some { c with cellNum := cellNum }

lemma leafNodeFind_not_end (pages : Nat → Node) (pageNum key : Nat) (c : Cursor)
    (h : leafNodeFind pages pageNum key = some c) : c.endOfTable = false := by
  unfold leafNodeFind at h
  cases hpg : pages pageNum <;> rw [hpg] at h
  · rw [← Option.some.inj h]
  · exact absurd h (by simp)

lemma internalNodeFind_not_end (pages : Nat → Node) :
    ∀ (fuel pageNum key : Nat) (c : Cursor),
      internalNodeFind pages fuel pageNum key = some c → c.endOfTable = false := by
  intro fuel
  induction fuel with
  | zero => intro pageNum key c h; exact absurd h (by simp [internalNodeFind])
  | succ fuel ih =>
    intro pageNum key c h
    unfold internalNodeFind at h
    split at h
    · exact absurd h (by simp)
    · split at h
      · exact absurd h (by simp)
      · split at h
        · exact leafNodeFind_not_end pages _ key c h
        · exact ih _ key c h

/-- C10.  Every cursor that `table_find` returns carries
`end_of_table = false`, even when the key exceeds every key of the table
and the cursor sits one past the last cell of its leaf: only
`table_start` (empty leftmost leaf) and `advance` (exhausted last leaf)
ever set the flag. -/
theorem table_find_not_end_of_table (fuel : Nat) (pages : Nat → Node)
    (rootPageNum key : Nat) (c : Cursor)
    (h : tableFind fuel pages rootPageNum key = some c) :
    c.endOfTable = false := by
  unfold tableFind at h
  cases hpg : pages rootPageNum <;> rw [hpg] at h
  · exact leafNodeFind_not_end pages _ key c h
  · exact internalNodeFind_not_end pages fuel _ key c h

/-- Witness for C10: on a one-leaf table searching key 5 past the end
still yields `end_of_table = false`. -/
theorem table_find_not_end_witness :
    (⟨0, 0, false⟩ : Cursor).endOfTable = false :=
  table_find_not_end_of_table 1 (fun _ => Node.leaf initLeafNode) 0 5
    ⟨0, 0, false⟩ rfl

/-! ## Leaf split redistribution (cursor.rs lines 194-244)

`leaf_node_split_and_insert` treats the 13 existing cells plus the
inserted one as 14 logical slots; slot `i` goes to the old page at index
`i` when `i < LEAF_NODE_LEFT_SPLIT_COUNT` and to the new page at
`i % LEAF_NODE_LEFT_SPLIT_COUNT` otherwise.  The loop runs `i` from 13
down to 0, recloning the old page before each write, so every source
read happens at an index not yet overwritten. -/

def updLeafCell (cs : Nat → LeafCell) (i : Nat) (c : LeafCell) : Nat → LeafCell :=
  fun j => if j = i then c else cs j

@[simp] lemma updLeafCell_same (cs : Nat → LeafCell) (i : Nat) (c : LeafCell) :
    updLeafCell cs i c i = c := by simp [updLeafCell]

lemma updLeafCell_other (cs : Nat → LeafCell) (i : Nat) (c : LeafCell) (j : Nat)
    (h : j ≠ i) : updLeafCell cs i c j = cs j := by simp [updLeafCell, h]

/-- The value written at logical slot `i` (cursor.rs lines 220-230): the
new cell at the insertion slot, the cell one to the left for slots past
it, the cell in place otherwise. -/
def splitSrcCell (cs : Nat → LeafCell) (cellNum : Nat) (nc : LeafCell) (i : Nat) :
    LeafCell :=
  if i = cellNum then nc
  else if i > cellNum then cs (i - 1)
  else cs i

/-- The 14 logical cells as the claim describes them: the 13 existing
cells with the new cell inserted at position `cellNum`. -/
def insertedCells (cs : Nat → LeafCell) (cellNum : Nat) (nc : LeafCell) (i : Nat) :
    LeafCell :=
  if i < cellNum then cs i else if i = cellNum then nc else cs (i - 1)

lemma insertedCells_eq_splitSrcCell (cs : Nat → LeafCell) (cellNum : Nat)
    (nc : LeafCell) (i : Nat) :
    insertedCells cs cellNum nc i = splitSrcCell cs cellNum nc i := by
  unfold insertedCells splitSrcCell
  split_ifs with h1 h2 h3 h4 h5 <;> first | rfl | omega

lemma splitSrcCell_congr (cs c0 : Nat → LeafCell) (cellNum i : Nat) (nc : LeafCell)
    (h : ∀ j, j ≤ i → cs j = c0 j) :
    splitSrcCell cs cellNum nc i = splitSrcCell c0 cellNum nc i := by
  unfold splitSrcCell
  split_ifs with h1 h2
  · rfl
  · exact h (i - 1) (by omega)
  · exact h i (le_refl i)

/-- One iteration of the redistribution loop at logical slot `i`
(cursor.rs lines 209-231). -/
def splitStep (cellNum : Nat) (nc : LeafCell) (i : Nat) (old new : LeafPage) :
    LeafPage × LeafPage :=
  let v := splitSrcCell old.cells cellNum nc i
  if LEAF_NODE_LEFT_SPLIT_COUNT ≤ i then
    (old, { new with cells := updLeafCell new.cells (i % LEAF_NODE_LEFT_SPLIT_COUNT) v })
  else
    ({ old with cells := updLeafCell old.cells (i % LEAF_NODE_LEFT_SPLIT_COUNT) v }, new)

/-- The loop `for i in (0..=LEAF_NODE_MAX_CELLS).rev()`: process slot
`i`, then the slots below it. -/
def splitLoop (cellNum : Nat) (nc : LeafCell) : Nat → LeafPage → LeafPage →
    LeafPage × LeafPage
  | 0, old, new => splitStep cellNum nc 0 old new
  | i + 1, old, new =>
    let p := splitStep cellNum nc (i + 1) old new
    splitLoop cellNum nc i p.1 p.2

lemma left_split_eq : LEAF_NODE_LEFT_SPLIT_COUNT = 7 := by decide
lemma right_split_eq : LEAF_NODE_RIGHT_SPLIT_COUNT = 7 := by decide
lemma max_cells_eq : LEAF_NODE_MAX_CELLS = 13 := by decide


lemma splitStep_high (cellNum : Nat) (nc : LeafCell) (i : Nat) (old new : LeafPage)
    (h7 : 7 ≤ i) (hle : i ≤ 13) :
    splitStep cellNum nc i old new =
      (old,
        { new with
          cells := updLeafCell new.cells (i - 7)
            (splitSrcCell old.cells cellNum nc i) }) := by
  unfold splitStep
  rw [left_split_eq, if_pos h7, show i % 7 = i - 7 by omega]

lemma splitStep_low (cellNum : Nat) (nc : LeafCell) (i : Nat) (old new : LeafPage)
    (h7 : i < 7) :
    splitStep cellNum nc i old new =
      ({ old with
         cells := updLeafCell old.cells i
           (splitSrcCell old.cells cellNum nc i) }, new) := by
  unfold splitStep
  rw [left_split_eq, if_neg (by omega), show i % 7 = i by omega]

lemma splitLoop_spec (cellNum : Nat) (nc : LeafCell) (c0 : Nat → LeafCell) :
    ∀ i, i ≤ 13 → ∀ old new : LeafPage, (∀ j, j ≤ i → old.cells j = c0 j) →
      (∀ j, j ≤ i → j < 7 →
        (splitLoop cellNum nc i old new).1.cells j = splitSrcCell c0 cellNum nc j) ∧
      (∀ j, 7 ≤ j → j ≤ i →
        (splitLoop cellNum nc i old new).2.cells (j - 7) =
          splitSrcCell c0 cellNum nc j) ∧
      (∀ j, i < j → (splitLoop cellNum nc i old new).1.cells j = old.cells j) ∧
      (∀ k, i < k + 7 → (splitLoop cellNum nc i old new).2.cells k = new.cells k) ∧
      (splitLoop cellNum nc i old new).1.isRoot = old.isRoot ∧
      (splitLoop cellNum nc i old new).1.parent = old.parent ∧
      (splitLoop cellNum nc i old new).1.numCells = old.numCells ∧
      (splitLoop cellNum nc i old new).1.nextLeaf = old.nextLeaf ∧
      (splitLoop cellNum nc i old new).2.isRoot = new.isRoot ∧
      (splitLoop cellNum nc i old new).2.parent = new.parent ∧
      (splitLoop cellNum nc i old new).2.numCells = new.numCells ∧
      (splitLoop cellNum nc i old new).2.nextLeaf = new.nextLeaf := by
  intro i
  induction i with
  | zero =>
    intro _ old new hagree
    have h0 : splitLoop cellNum nc 0 old new =
        ({ old with
           cells := updLeafCell old.cells 0
             (splitSrcCell old.cells cellNum nc 0) }, new) := by
      unfold splitLoop
      exact splitStep_low cellNum nc 0 old new (by omega)
    rw [h0]
    refine ⟨?_, ?_, ?_, ?_, rfl, rfl, rfl, rfl, rfl, rfl, rfl, rfl⟩
    · intro j hj _
      have hj0 : j = 0 := by omega
      subst hj0
      show updLeafCell old.cells 0 (splitSrcCell old.cells cellNum nc 0) 0 =
        splitSrcCell c0 cellNum nc 0
      rw [updLeafCell_same, splitSrcCell_congr old.cells c0 cellNum 0 nc hagree]
    · intro j hj hj0; omega
    · intro j hj
      show updLeafCell old.cells 0 (splitSrcCell old.cells cellNum nc 0) j =
        old.cells j
      exact updLeafCell_other _ _ _ _ (by omega)
    · intro k _; rfl
  | succ i ih =>
    intro hle old new hagree
    have hloop : splitLoop cellNum nc (i + 1) old new =
        splitLoop cellNum nc i (splitStep cellNum nc (i + 1) old new).1
          (splitStep cellNum nc (i + 1) old new).2 := rfl
    have hv : splitSrcCell old.cells cellNum nc (i + 1) =
        splitSrcCell c0 cellNum nc (i + 1) :=
      splitSrcCell_congr old.cells c0 cellNum (i + 1) nc hagree
    by_cases h7 : 7 ≤ i + 1
    · -- slot i+1 goes to the new page; the old page is untouched
      have hstep := splitStep_high cellNum nc (i + 1) old new h7 hle
      set new' : LeafPage :=
        { new with
          cells := updLeafCell new.cells (i + 1 - 7)
            (splitSrcCell old.cells cellNum nc (i + 1)) } with hnew'
      have hfst : (splitStep cellNum nc (i + 1) old new).1 = old := by rw [hstep]
      have hsnd : (splitStep cellNum nc (i + 1) old new).2 = new' := by rw [hstep]
      rw [hloop, hfst, hsnd]
      have := ih (by omega) old new' (fun j hj => hagree j (by omega))
      refine ⟨?_, ?_, ?_, ?_, this.2.2.2.2.1, this.2.2.2.2.2.1,
        this.2.2.2.2.2.2.1, this.2.2.2.2.2.2.2.1,
        (this.2.2.2.2.2.2.2.2.1).trans rfl,
        (this.2.2.2.2.2.2.2.2.2.1).trans rfl,
        (this.2.2.2.2.2.2.2.2.2.2.1).trans rfl,
        (this.2.2.2.2.2.2.2.2.2.2.2).trans rfl⟩
      · intro j hj hj7
        exact this.1 j (by omega) hj7
      · intro j hj7 hj
        by_cases hji : j ≤ i
        · exact this.2.1 j hj7 hji
        · have hj1 : j = i + 1 := by omega
          subst hj1
          rw [this.2.2.2.1 (i + 1 - 7) (by omega), hnew']
          show updLeafCell new.cells (i + 1 - 7)
            (splitSrcCell old.cells cellNum nc (i + 1)) (i + 1 - 7) = _
          rw [updLeafCell_same, hv]
      · intro j hj
        exact this.2.2.1 j (by omega)
      · intro k hk
        rw [this.2.2.2.1 k (by omega), hnew']
        show updLeafCell new.cells (i + 1 - 7)
          (splitSrcCell old.cells cellNum nc (i + 1)) k = new.cells k
        exact updLeafCell_other _ _ _ _ (by omega)
    · -- slot i+1 goes to the old page; the new page is untouched
      have hstep := splitStep_low cellNum nc (i + 1) old new (by omega)
      set old' : LeafPage :=
        { old with
          cells := updLeafCell old.cells (i + 1)
            (splitSrcCell old.cells cellNum nc (i + 1)) } with hold'
      have hfst : (splitStep cellNum nc (i + 1) old new).1 = old' := by rw [hstep]
      have hsnd : (splitStep cellNum nc (i + 1) old new).2 = new := by rw [hstep]
      rw [hloop, hfst, hsnd]
      have hagree' : ∀ j, j ≤ i → old'.cells j = c0 j := by
        intro j hj
        rw [hold']
        show updLeafCell old.cells (i + 1)
          (splitSrcCell old.cells cellNum nc (i + 1)) j = c0 j
        rw [updLeafCell_other _ _ _ _ (by omega)]
        exact hagree j (by omega)
      have := ih (by omega) old' new hagree'
      refine ⟨?_, ?_, ?_, fun k hk => this.2.2.2.1 k (by omega),
        (this.2.2.2.2.1).trans rfl,
        (this.2.2.2.2.2.1).trans rfl,
        (this.2.2.2.2.2.2.1).trans rfl,
        (this.2.2.2.2.2.2.2.1).trans rfl,
        this.2.2.2.2.2.2.2.2.1, this.2.2.2.2.2.2.2.2.2.1,
        this.2.2.2.2.2.2.2.2.2.2.1, this.2.2.2.2.2.2.2.2.2.2.2⟩
      · intro j hj hj7
        by_cases hji : j ≤ i
        · exact this.1 j hji hj7
        · have hj1 : j = i + 1 := by omega
          subst hj1
          rw [this.2.2.1 (i + 1) (by omega), hold']
          show updLeafCell old.cells (i + 1)
            (splitSrcCell old.cells cellNum nc (i + 1)) (i + 1) = _
          rw [updLeafCell_same, hv]
      · intro j hj7 hj; omega
      · intro j hj
        rw [this.2.2.1 j (by omega), hold']
        show updLeafCell old.cells (i + 1)
          (splitSrcCell old.cells cellNum nc (i + 1)) j = old.cells j
        exact updLeafCell_other _ _ _ _ (by omega)

/-- The redistribution phase of `Cursor::leaf_node_split_and_insert`
(cursor.rs lines 195-244): allocate the sibling pointer chain, run the
loop over the 14 logical slots, then set both cell counts. -/
def leafSplitRedistribute (old : LeafPage) (newPageNum cellNum key : Nat)
    (row : Row) : LeafPage × LeafPage :=
  let old1 := { old with nextLeaf := newPageNum }
  let new1 := { initLeafNode with nextLeaf := old.nextLeaf }
  let p := splitLoop cellNum { key := key, value := row } LEAF_NODE_MAX_CELLS old1 new1
  ({ p.1 with numCells := LEAF_NODE_LEFT_SPLIT_COUNT },
   { p.2 with numCells := LEAF_NODE_RIGHT_SPLIT_COUNT })

/-- C6.  Splitting a full leaf at insertion slot `cellNum` distributes
the 14 logical cells (the 13 existing ones with the new cell inserted at
`cellNum`) so that slots `0..6` stay in the old leaf at the same index
and slots `7..13` land in the new leaf at `i - 7`; afterwards both
leaves hold 7 cells, the new leaf inherits the old leaf's previous
`next_leaf`, and the old leaf's `next_leaf` points at the new page. -/
theorem leaf_split_distributes_cells (old : LeafPage)
    (newPageNum cellNum key : Nat) (row : Row)
    (hfull : old.numCells = LEAF_NODE_MAX_CELLS)
    (hcn : cellNum ≤ LEAF_NODE_MAX_CELLS) :
    (leafSplitRedistribute old newPageNum cellNum key row).1.numCells = 7 ∧
    (leafSplitRedistribute old newPageNum cellNum key row).2.numCells = 7 ∧
    (leafSplitRedistribute old newPageNum cellNum key row).2.nextLeaf =
      old.nextLeaf ∧
    (leafSplitRedistribute old newPageNum cellNum key row).1.nextLeaf =
      newPageNum ∧
    (∀ i, i < 7 →
      (leafSplitRedistribute old newPageNum cellNum key row).1.cells i =
        insertedCells old.cells cellNum { key := key, value := row } i) ∧
    (∀ i, 7 ≤ i → i < 14 →
      (leafSplitRedistribute old newPageNum cellNum key row).2.cells (i - 7) =
        insertedCells old.cells cellNum { key := key, value := row } i) := by
  have hspec := splitLoop_spec cellNum { key := key, value := row } old.cells 13
    (by omega) { old with nextLeaf := newPageNum }
    { initLeafNode with nextLeaf := old.nextLeaf } (fun j _ => rfl)
  have hred : leafSplitRedistribute old newPageNum cellNum key row =
      ({ (splitLoop cellNum { key := key, value := row } 13
          { old with nextLeaf := newPageNum }
          { initLeafNode with nextLeaf := old.nextLeaf }).1 with numCells := 7 },
       { (splitLoop cellNum { key := key, value := row } 13
          { old with nextLeaf := newPageNum }
          { initLeafNode with nextLeaf := old.nextLeaf }).2 with numCells := 7 }) := by
    unfold leafSplitRedistribute
    rw [max_cells_eq, left_split_eq, right_split_eq]
  rw [hred]
  refine ⟨rfl, rfl, (hspec.2.2.2.2.2.2.2.2.2.2.2).trans rfl,
    (hspec.2.2.2.2.2.2.2.1).trans rfl, ?_, ?_⟩
  · intro i hi
    rw [insertedCells_eq_splitSrcCell]
    exact hspec.1 i (by omega) hi
  · intro i h7 hi
    rw [insertedCells_eq_splitSrcCell]
    exact hspec.2.1 i h7 (by omega)

/-- A concrete full leaf: keys 1..13. -/
def fullLeaf13 : LeafPage :=
  { isRoot := false, parent := 0, numCells := LEAF_NODE_MAX_CELLS, nextLeaf := 0
    cells := fun i => { key := i + 1, value := zeroRow } }

/-- Witness for C6: the concrete full leaf split at slot 13 (appending
key 14). -/
theorem leaf_split_distributes_cells_witness :
    (fullLeaf13.numCells = LEAF_NODE_MAX_CELLS ∧
      (13 : Nat) ≤ LEAF_NODE_MAX_CELLS) ∧
    ((leafSplitRedistribute fullLeaf13 9 13 14 zeroRow).1.numCells = 7 ∧
    (leafSplitRedistribute fullLeaf13 9 13 14 zeroRow).2.numCells = 7 ∧
    (leafSplitRedistribute fullLeaf13 9 13 14 zeroRow).2.nextLeaf =
      fullLeaf13.nextLeaf ∧
    (leafSplitRedistribute fullLeaf13 9 13 14 zeroRow).1.nextLeaf = 9 ∧
    (∀ i, i < 7 →
      (leafSplitRedistribute fullLeaf13 9 13 14 zeroRow).1.cells i =
        insertedCells fullLeaf13.cells 13 { key := 14, value := zeroRow } i) ∧
    (∀ i, 7 ≤ i → i < 14 →
      (leafSplitRedistribute fullLeaf13 9 13 14 zeroRow).2.cells (i - 7) =
        insertedCells fullLeaf13.cells 13 { key := 14, value := zeroRow } i)) :=
  ⟨⟨rfl, by decide⟩,
    leaf_split_distributes_cells fullLeaf13 9 13 14 zeroRow rfl (by decide)⟩

/-! ## Table state (table.rs, statement.rs)

`Table` carries the root page number, the pager's `num_pages`, and the
loaded page contents as a total map (fetching a cached page through
`get_page` is a pure lookup; allocation of a fresh page bumps
`num_pages`, and a never-written page reads as a zeroed leaf). -/

structure Table where
  rootPageNum : Nat
  numPages : Nat
  pages : Nat → Node

def setPage (pages : Nat → Node) (pg : Nat) (nd : Node) : Nat → Node :=
  fun n => if n = pg then nd else pages n

/-- `Node::set_node_root` / `Node::parent` writes, on either variant. -/
def setNodeRoot : Node → Bool → Node
  | .leaf L, b => .leaf { L with isRoot := b }
  | .internal P, b => .internal { P with isRoot := b }

def setNodeParent : Node → Nat → Node
  | .leaf L, p => .leaf { L with parent := p }
  | .internal P, p => .internal { P with parent := p }

/-- Modelled from the spec: `Pager::get_node_max_key` is called by
table.rs but absent from the repository's `src/pager.rs`; the spec
(§4.1) defines it as the key at `num_cells - 1` for a leaf and
recursively the maximum key of the `right_child` subtree for an internal
node.  The recursion over pages carries fuel (callers pass
`TABLE_MAX_PAGES + 1`, enough for any tree of cached pages). -/
def getNodeMaxKey (pages : Nat → Node) : Nat → Nat → Nat
  | 0, _ => 0
  | fuel + 1, pg =>
    match pages pg with
    | .leaf L => (L.cells (L.numCells - 1)).key
    | .internal P => getNodeMaxKey pages fuel P.rightChild

/-- The reparenting loop of `Table::create_new_root` (table.rs lines
75-84): children `0..num_keys` of the copied root get their parent set
to the left child's page. -/
def reparentChildren (P : InternalPage) (leftPg : Nat) (pages : Nat → Node) :
    Nat → (Nat → Node)
  | 0 => pages
  | i + 1 =>
    let pages1 := reparentChildren P leftPg pages i
    setPage pages1 (P.cells i).child
      (setNodeParent (pages1 ((P.cells i).child)) leftPg)

/-- `Table::create_new_root` (table.rs lines 40-105): copy the root into
a fresh left-child page, reparent its children if it was internal (and
reinitialize the right child in that case, as the source does), then
rebuild the root page as an internal node with one key and two
children. -/
def createNewRoot (st : Table) (rightChildPg : Nat) : Table :=
  let root := st.pages st.rootPageNum
  let isRootInternal := match root with
    | .internal _ => true
    | .leaf _ => false
  let pages1 := setPage st.pages st.rootPageNum (.internal initInternalNode)
  let pages2 := if isRootInternal then
      setPage pages1 rightChildPg (.internal initInternalNode)
    else pages1
  let leftPg := st.numPages
  let pages3 := setPage pages2 leftPg root
  let pages4 := setPage pages3 leftPg (setNodeRoot (pages3 leftPg) false)
  let pages5 := match root with
    | .internal P =>
      let pagesA := reparentChildren P leftPg pages4 P.numKeys
      setPage pagesA P.rightChild (setNodeParent (pagesA P.rightChild) leftPg)
    | .leaf _ => pages4
  let leftMax := getNodeMaxKey pages5 (TABLE_MAX_PAGES + 1) leftPg
  let rootP : InternalPage :=
    { initInternalNode with
      isRoot := true
      numKeys := 1
      rightChild := rightChildPg
      cells := fun j => if j = 0 then { child := leftPg, key := leftMax }
        else initInternalNode.cells j }
  let pages6 := setPage pages5 st.rootPageNum (.internal rootP)
  let pages7 := setPage pages6 leftPg (setNodeParent (pages6 leftPg) st.rootPageNum)
  let pages8 := setPage pages7 rightChildPg
    (setNodeParent (pages7 rightChildPg) st.rootPageNum)
  { st with pages := pages8, numPages := leftPg + 1 }

/-- `Cursor::leaf_node_split_and_insert` (cursor.rs lines 194-251):
allocate a page, redistribute, then either promote a new root — or, for
a non-root leaf, hit the source's
`todo!("Need to implement updating parent after split.")`, which panics
(`none`). -/
def leafNodeSplitAndInsert (st : Table) (pageNum cellNum key : Nat) (row : Row) :
    Option Table :=
  let newPageNum := st.numPages
  match st.pages pageNum with
  | .internal _ => none
  | .leaf old =>
    let p := leafSplitRedistribute old newPageNum cellNum key row
    let pages1 := setPage st.pages pageNum (.leaf p.1)
    let pages2 := setPage pages1 newPageNum (.leaf p.2)
    let st1 : Table := { st with pages := pages2, numPages := newPageNum + 1 }
    if p.1.isRoot then some (createNewRoot st1 newPageNum)
    else none

lemma leafSplitRedistribute_fst_isRoot (old : LeafPage)
    (newPageNum cellNum key : Nat) (row : Row) :
    (leafSplitRedistribute old newPageNum cellNum key row).1.isRoot =
      old.isRoot := by
  have hspec := splitLoop_spec cellNum { key := key, value := row } old.cells 13
    (by omega) { old with nextLeaf := newPageNum }
    { initLeafNode with nextLeaf := old.nextLeaf } (fun j _ => rfl)
  have hred : (leafSplitRedistribute old newPageNum cellNum key row).1.isRoot =
      (splitLoop cellNum { key := key, value := row } 13
        { old with nextLeaf := newPageNum }
        { initLeafNode with nextLeaf := old.nextLeaf }).1.isRoot := by
    unfold leafSplitRedistribute
    rw [max_cells_eq]
  rw [hred]
  exact (hspec.2.2.2.2.1).trans rfl

/-- C1.  Splitting a full leaf that is not the root panics: the source's
non-root arm is `todo!("Need to implement updating parent after
split.")` — the parent-key update and `internal_insert` of the new
sibling that the claim (and the spec) describe never run, and the
operation aborts instead of completing. -/
theorem leaf_split_nonroot_aborts (st : Table) (pageNum cellNum key : Nat)
    (row : Row) (L : LeafPage) (hpg : st.pages pageNum = Node.leaf L)
    (hfull : L.numCells = LEAF_NODE_MAX_CELLS) (hroot : L.isRoot = false) :
    leafNodeSplitAndInsert st pageNum cellNum key row = none := by
  unfold leafNodeSplitAndInsert
  rw [hpg]
  simp only [leafSplitRedistribute_fst_isRoot, hroot, Bool.false_eq_true,
    if_false]

/-- A table whose page 1 is a full non-root leaf under an internal
root. -/
def tableC1 : Table :=
  { rootPageNum := 0
    numPages := 3
    pages := fun n =>
      if n = 1 then Node.leaf fullLeaf13
      else if n = 2 then Node.leaf initLeafNode
      else Node.internal
        { isRoot := true, parent := 0, numKeys := 1, rightChild := 2
          cells := fun j => if j = 0 then { child := 1, key := 13 }
            else { child := 0, key := 0 } } }

/-- Witness for C1: splitting the concrete full non-root leaf aborts. -/
theorem leaf_split_nonroot_aborts_witness :
    (tableC1.pages 1 = Node.leaf fullLeaf13 ∧
      fullLeaf13.numCells = LEAF_NODE_MAX_CELLS ∧ fullLeaf13.isRoot = false) ∧
    leafNodeSplitAndInsert tableC1 1 5 6 zeroRow = none :=
  ⟨⟨rfl, rfl, rfl⟩,
    leaf_split_nonroot_aborts tableC1 1 5 6 zeroRow fullLeaf13 rfl rfl rfl⟩

/-! ## Internal-node insertion (table.rs lines 108-156)

`internal_node_insert` adds a child/key pair to a parent internal node.
`Pager::get_node_max_key` is absent from the repository's `src/pager.rs`
(see `getNodeMaxKey`); here the embedding abstracts it as the parameter
`mk`, so the theorems hold for every subtree-max oracle.  The full-node
branch delegates to `internal_node_split_and_insert` (table.rs line 116)
and is left unexpanded (`none`); no theorem below reaches it. -/

def updInternalCell (cs : Nat → InternalCell) (i : Nat) (c : InternalCell) :
    Nat → InternalCell :=
  fun j => if j = i then c else cs j

/-- The shift loop of `internal_node_insert` (table.rs lines 145-152):
`while i > index`, move cell `i-1` into cell `i`, leaving a default cell
behind (`std::mem::replace`). -/
def internalShiftGo (index : Nat) : Nat → (Nat → InternalCell) → (Nat → InternalCell)
  | 0, cs => cs
  | i + 1, cs =>
    if index < i + 1 then
      internalShiftGo index i
        (updInternalCell (updInternalCell cs (i + 1) (cs i)) i { child := 0, key := 0 })
    else cs

lemma internalShiftGo_spec (index : Nat) :
    ∀ i (cs : Nat → InternalCell) (j : Nat),
      internalShiftGo index i cs j =
        if index < i then
          (if j = index then { child := 0, key := 0 }
           else if index < j ∧ j ≤ i then cs (j - 1) else cs j)
        else cs j := by
  intro i
  induction i with
  | zero => intro cs j; simp [internalShiftGo]
  | succ i ih =>
    intro cs j
    by_cases h : index < i + 1
    · have hstep : internalShiftGo index (i + 1) cs =
          internalShiftGo index i
            (updInternalCell (updInternalCell cs (i + 1) (cs i)) i
              { child := 0, key := 0 }) := by
        simp [internalShiftGo, h]
      rw [hstep, ih]
      simp only [updInternalCell]
      split_ifs <;> first | rfl | omega | exact congrArg cs (by omega)
    · have hstep : internalShiftGo index (i + 1) cs = cs := by
        simp [internalShiftGo, h]
      rw [hstep, if_neg h]

lemma findChildGo_le (kf : Nat → Nat) (key : Nat) :
    ∀ fuel lo hi, lo ≤ hi → findChildGo kf key fuel lo hi ≤ hi := by
  intro fuel
  induction fuel with
  | zero => intro lo hi h; exact h
  | succ fuel ih =>
    intro lo hi h
    by_cases h1 : lo = hi
    · unfold findChildGo; rw [if_pos h1]; omega
    · unfold findChildGo
      simp only [if_neg h1]
      by_cases h2 : kf ((lo + hi) / 2) ≥ key
      · simp only [if_pos h2]
        have hm : (lo + hi) / 2 ≤ hi := by omega
        exact le_trans (ih lo ((lo + hi) / 2) (by omega)) hm
      · simp only [if_neg h2]
        exact ih ((lo + hi) / 2 + 1) hi (by omega)

lemma internalNodeFindChild_le (numKeys : Nat) (kf : Nat → Nat) (key : Nat) :
    internalNodeFindChild numKeys kf key ≤ numKeys :=
  findChildGo_le kf key (numKeys + 1) 0 numKeys (Nat.zero_le _)

/-- `Table::internal_node_insert` (table.rs lines 108-156), acting on the
page map; only the parent page is written (parent pointers of moved
children are maintained by the callers). -/
def internalNodeInsert (mk : Nat → Nat) (pages : Nat → Node)
    (parentPg childPg : Nat) : Option (Nat → Node) :=
  let childMax := mk childPg
  match pages parentPg with
  | .leaf _ => none
  | .internal P =>
    let index := internalNodeFindChild P.numKeys (fun j => (P.cells j).key) childMax
    let orig := P.numKeys
    if INTERNAL_NODE_MAX_CELLS ≤ orig then none
    else
      if P.rightChild = INVALID_PAGE_NUM then
        some (setPage pages parentPg (.internal { P with rightChild := childPg }))
      else
        let rcMax := mk P.rightChild
        if rcMax < childMax then
          some (setPage pages parentPg (.internal
            { P with
              numKeys := orig + 1
              rightChild := childPg
              cells := updInternalCell P.cells orig
                { child := P.rightChild, key := rcMax } }))
        else
          some (setPage pages parentPg (.internal
            { P with
              numKeys := orig + 1
              cells := updInternalCell (internalShiftGo index orig P.cells) index
                { child := childPg, key := childMax } }))

/-- C7.  For a parent internal node with fewer than 3 keys:
if `right_child` is the `INVALID` sentinel the child simply becomes the
right child and `num_keys` stays 0; otherwise `num_keys` grows by one
and either (child max above right-child max) the displaced right child
is written into cell `orig_num_keys` as `(right_child, right_child_max)`
with the child as new right child, or (otherwise) cells
`[index, orig_num_keys)` shift one slot right and `(child, child_max)`
lands at `index = find_child(child_max)`. -/
theorem internal_node_insert_spec (mk : Nat → Nat) (pages : Nat → Node)
    (parentPg childPg : Nat) (P : InternalPage)
    (hpg : pages parentPg = Node.internal P)
    (hroom : P.numKeys < INTERNAL_NODE_MAX_CELLS) :
    (P.rightChild = INVALID_PAGE_NUM →
      internalNodeInsert mk pages parentPg childPg =
        some (setPage pages parentPg
          (Node.internal { P with rightChild := childPg }))) ∧
    (P.rightChild ≠ INVALID_PAGE_NUM →
      ∃ P' : InternalPage,
        internalNodeInsert mk pages parentPg childPg =
          some (setPage pages parentPg (Node.internal P')) ∧
        P'.numKeys = P.numKeys + 1 ∧
        P'.isRoot = P.isRoot ∧ P'.parent = P.parent ∧
        (mk P.rightChild < mk childPg →
          P'.cells P.numKeys = { child := P.rightChild, key := mk P.rightChild } ∧
          P'.rightChild = childPg ∧
          (∀ j, j < P.numKeys → P'.cells j = P.cells j)) ∧
        (mk childPg ≤ mk P.rightChild →
          P'.rightChild = P.rightChild ∧
          (∀ j, j < internalNodeFindChild P.numKeys (fun k => (P.cells k).key)
              (mk childPg) → P'.cells j = P.cells j) ∧
          P'.cells (internalNodeFindChild P.numKeys (fun k => (P.cells k).key)
              (mk childPg)) = { child := childPg, key := mk childPg } ∧
          (∀ j, internalNodeFindChild P.numKeys (fun k => (P.cells k).key)
              (mk childPg) < j → j ≤ P.numKeys → P'.cells j = P.cells (j - 1)) ∧
          (∀ j, P.numKeys < j → P'.cells j = P.cells j))) := by
  have hfull : ¬ (INTERNAL_NODE_MAX_CELLS ≤ P.numKeys) := not_le.mpr hroom
  have hidx := internalNodeFindChild_le P.numKeys (fun k => (P.cells k).key)
    (mk childPg)
  constructor
  · intro hinv
    unfold internalNodeInsert
    rw [hpg]
    simp only [hfull, if_false, hinv, eq_self_iff_true, if_true]
  · intro hinv
    unfold internalNodeInsert
    rw [hpg]
    simp only [hfull, if_false, if_neg hinv]
    by_cases hcmp : mk P.rightChild < mk childPg
    · rw [if_pos hcmp]
      refine ⟨_, rfl, rfl, rfl, rfl, ?_, ?_⟩
      · intro _
        refine ⟨?_, rfl, ?_⟩
        · show updInternalCell P.cells P.numKeys
            { child := P.rightChild, key := mk P.rightChild } P.numKeys = _
          simp [updInternalCell]
        · intro j hj
          show updInternalCell P.cells P.numKeys
            { child := P.rightChild, key := mk P.rightChild } j = P.cells j
          simp only [updInternalCell]
          rw [if_neg (by omega)]
      · intro h'
        omega
    · rw [if_neg hcmp]
      push_neg at hcmp
      refine ⟨_, rfl, rfl, rfl, rfl, fun h' => absurd h' (by omega), ?_⟩
      intro _
      refine ⟨rfl, ?_, ?_, ?_, ?_⟩
      · intro j hj
        show updInternalCell (internalShiftGo _ _ P.cells) _ _ j = P.cells j
        simp only [updInternalCell]
        rw [if_neg (by omega), internalShiftGo_spec]
        split_ifs <;> first | rfl | omega
      · show updInternalCell (internalShiftGo _ _ P.cells) _ _ _ = _
        simp [updInternalCell]
      · intro j hj1 hj2
        show updInternalCell (internalShiftGo _ _ P.cells) _ _ j = P.cells (j - 1)
        simp only [updInternalCell]
        rw [if_neg (by omega), internalShiftGo_spec]
        split_ifs <;> first | rfl | omega
      · intro j hj
        show updInternalCell (internalShiftGo _ _ P.cells) _ _ j = P.cells j
        simp only [updInternalCell]
        rw [if_neg (by omega), internalShiftGo_spec]
        split_ifs <;> first | rfl | omega

/-- A concrete parent internal node: one key, cell 0 = (child 5, key 30),
right child page 6. -/
def internalP7 : InternalPage :=
  { isRoot := false, parent := 0, numKeys := 1, rightChild := 6
    cells := fun j => if j = 0 then { child := 5, key := 30 }
      else { child := 0, key := 0 } }

def pagesW7 : Nat → Node :=
  fun n => if n = 1 then Node.internal internalP7 else Node.leaf initLeafNode

/-- A concrete subtree-max oracle for `pagesW7`. -/
def mkW7 : Nat → Nat :=
  fun pg => if pg = 5 then 30 else if pg = 6 then 40 else if pg = 7 then 10 else 0

/-- Witness for C7 at the concrete parent: inserting child page 7 (max
key 10, not above the right child's max 40). -/
theorem internal_node_insert_spec_witness :
    (internalP7.rightChild = INVALID_PAGE_NUM →
      internalNodeInsert mkW7 pagesW7 1 7 =
        some (setPage pagesW7 1
          (Node.internal { internalP7 with rightChild := 7 }))) ∧
    (internalP7.rightChild ≠ INVALID_PAGE_NUM →
      ∃ P' : InternalPage,
        internalNodeInsert mkW7 pagesW7 1 7 =
          some (setPage pagesW7 1 (Node.internal P')) ∧
        P'.numKeys = internalP7.numKeys + 1 ∧
        P'.isRoot = internalP7.isRoot ∧ P'.parent = internalP7.parent ∧
        (mkW7 internalP7.rightChild < mkW7 7 →
          P'.cells internalP7.numKeys =
            { child := internalP7.rightChild, key := mkW7 internalP7.rightChild } ∧
          P'.rightChild = 7 ∧
          (∀ j, j < internalP7.numKeys → P'.cells j = internalP7.cells j)) ∧
        (mkW7 7 ≤ mkW7 internalP7.rightChild →
          P'.rightChild = internalP7.rightChild ∧
          (∀ j, j < internalNodeFindChild internalP7.numKeys
              (fun k => (internalP7.cells k).key) (mkW7 7) →
            P'.cells j = internalP7.cells j) ∧
          P'.cells (internalNodeFindChild internalP7.numKeys
              (fun k => (internalP7.cells k).key) (mkW7 7)) =
            { child := 7, key := mkW7 7 } ∧
          (∀ j, internalNodeFindChild internalP7.numKeys
              (fun k => (internalP7.cells k).key) (mkW7 7) < j →
            j ≤ internalP7.numKeys → P'.cells j = internalP7.cells (j - 1)) ∧
          (∀ j, internalP7.numKeys < j → P'.cells j = internalP7.cells j))) :=
  internal_node_insert_spec mkW7 pagesW7 1 7 internalP7 rfl (by decide)

/-! ## Internal-node split redistribution loop (table.rs lines 208-231)

`internal_node_split_and_insert` first parks the old node's right child
in the new node and sets `old.right_child = INVALID_PAGE_NUM` (lines
195-206).  The loop below (lines 209-222) then runs `i` from
`INTERNAL_NODE_MAX_CELLS - 1` down to `INTERNAL_NODE_MAX_CELLS / 2 + 1`,
and on each pass inserts `old.child(i)` into the new node, reparents it
— and then executes `*old.internal_node_right_child() -= 1`, a value
decrement of the just-written `INVALID_PAGE_NUM` sentinel, while
`old.num_keys` is left untouched (the subtraction below `INVALID` never
wraps, so plain `Nat` subtraction is exact here). -/

def moveGo (mk : Nat → Nat) (oldPg newPg : Nat) :
    Nat → (Nat → Node) → Option (Nat → Node)
  | 0, pages => some pages
  | i + 1, pages =>
    if INTERNAL_NODE_MAX_CELLS / 2 < i + 1 then
      match pages oldPg with
      | .leaf _ => none
      | .internal P =>
        match internalNodeChild P (i + 1) with
        | none => none
        | some curPg =>
          match internalNodeInsert mk pages newPg curPg with
          | none => none
          | some pages1 =>
            let pages2 := setPage pages1 curPg (setNodeParent (pages1 curPg) newPg)
            match pages2 oldPg with
            | .leaf _ => none
            | .internal P2 =>
              moveGo mk oldPg newPg i (setPage pages2 oldPg
                (.internal { P2 with rightChild := P2.rightChild - 1 }))
    else some pages

/-- The redistribution loop entered at `i = INTERNAL_NODE_MAX_CELLS - 1`
(table.rs lines 209-222). -/
def internalSplitMoveLoop (mk : Nat → Nat) (oldPg newPg : Nat)
    (pages : Nat → Node) : Option (Nat → Node) :=
  moveGo mk oldPg newPg (INTERNAL_NODE_MAX_CELLS - 1) pages

/-- Observe an internal page: `(num_keys, right_child, cell 0)`. -/
def obsInternal (pages : Option (Nat → Node)) (pg : Nat) :
    Option (Nat × Nat × Nat × Nat) :=
  match pages with
  | none => none
  | some ps =>
    match ps pg with
    | .internal P => some (P.numKeys, P.rightChild, (P.cells 0).child, (P.cells 0).key)
    | .leaf _ => none

/-- The mid-split state: page 1 is the full old internal node (children
3, 4, 5 with keys 10, 20, 30; right child just set to
`INVALID_PAGE_NUM`), page 2 the fresh new node already holding the old
right child (page 6). -/
def pagesC3 : Nat → Node :=
  fun n =>
    if n = 1 then Node.internal
      { isRoot := false, parent := 0, numKeys := 3
        rightChild := INVALID_PAGE_NUM
        cells := fun j => if j = 0 then { child := 3, key := 10 }
          else if j = 1 then { child := 4, key := 20 }
          else if j = 2 then { child := 5, key := 30 }
          else { child := 0, key := 0 } }
    else if n = 2 then Node.internal
      { isRoot := false, parent := 0, numKeys := 0, rightChild := 6
        cells := fun _ => { child := 0, key := 0 } }
    else Node.leaf initLeafNode

def mkC3 : Nat → Nat := fun pg => if pg = 5 then 30 else if pg = 6 then 40 else 0

/-- C3 evidence.  Running the redistribution loop on the concrete
mid-split state moves `old.child(2)` (page 5, key 30) into the new node
as claimed, but the per-iteration decrement hits `old.right_child` — it
drops from `INVALID_PAGE_NUM` to `INVALID_PAGE_NUM - 1 = 4294967294` —
while `old.num_keys` stays at 3 instead of shrinking by the one moved
child. -/
theorem internal_split_loop_decrements_right_child :
    obsInternal (internalSplitMoveLoop mkC3 1 2 pagesC3) 1 =
      some (3, INVALID_PAGE_NUM - 1, 3, 10) ∧
    obsInternal (internalSplitMoveLoop mkC3 1 2 pagesC3) 2 =
      some (1, 6, 5, 30) ∧
    INVALID_PAGE_NUM - 1 = 4294967294 := by
  refine ⟨by decide, by decide, by decide⟩

/-! ## Leaf insertion and execute_insert (cursor.rs lines 157-189,
statement.rs lines 94-119) -/

/-- The shift loop of `Cursor::leaf_node_insert` (cursor.rs lines
169-178): `while i > cell_num`, copy cell `i-1` into cell `i`. -/
def leafShiftGo (cellNum : Nat) : Nat → (Nat → LeafCell) → (Nat → LeafCell)
  | 0, cs => cs
  | i + 1, cs =>
    if cellNum < i + 1 then
      leafShiftGo cellNum i (updLeafCell cs (i + 1) (cs i))
    else cs

/-- `Cursor::leaf_node_insert` (cursor.rs lines 157-189): split when the
leaf is full, otherwise shift `[cell_num, num_cells)` right and write
the new cell at `cell_num`. -/
def leafNodeInsert (st : Table) (c : Cursor) (key : Nat) (row : Row) :
    Option Table :=
  match st.pages c.pageNum with
  | .internal _ => none
  | .leaf L =>
    if LEAF_NODE_MAX_CELLS ≤ L.numCells then
      leafNodeSplitAndInsert st c.pageNum c.cellNum key row
    else
      let cells1 := leafShiftGo c.cellNum L.numCells L.cells
      some { st with pages := setPage st.pages c.pageNum (.leaf
        { L with
          numCells := L.numCells + 1
          cells := updLeafCell cells1 c.cellNum { key := key, value := row } }) }

inductive ExecuteErr where
  | tableFull
  | duplicateKey
  deriving DecidableEq, Repr

/-- statement.rs line 98 reads `leaf_node_num_cells` from the ROOT page.
A leaf's `num_cells` and an internal node's `num_keys` both occupy bytes
6..10 of the page, so on an internal root this byte read returns
`num_keys`. -/
def rootNumCellsBytes : Node → Nat
  | .leaf L => L.numCells
  | .internal P => P.numKeys

/-- statement.rs line 109 reads `leaf_node_key(cell_num)` from the ROOT
page: bytes `14 + 295 * cell_num ..+ 4`.  On an internal page offset 14
holds cell 0's child pointer, and offsets for `cell_num ≥ 1` lie past
the three stored 8-byte cells, where an initialized page is zero. -/
def rootLeafKeyBytes : Node → Nat → Nat
  | .leaf L, i => (L.cells i).key
  | .internal P, i => if i = 0 then (P.cells 0).child else 0

/-- `Statement::execute_insert` (statement.rs lines 94-119).  Note the
duplicate check reads `num_cells` and the key from the ROOT page, not
from the leaf the cursor landed on. -/
def executeInsert (fuel : Nat) (st : Table) (row : Row) :
    Option (Except ExecuteErr Unit × Table) :=
  let numCells := rootNumCellsBytes (st.pages st.rootPageNum)
  match tableFind fuel st.pages st.rootPageNum row.id with
  | none => none
  | some c =>
    if c.cellNum < numCells ∧
        rootLeafKeyBytes (st.pages st.rootPageNum) c.cellNum = row.id then
      some (.error .duplicateKey, st)
    else
      (leafNodeInsert st c row.id row).map (fun st' => (.ok (), st'))

/-- C5 (amended).  When the root page is a leaf (so the cursor's leaf IS
the root page the code consults), `execute_insert` fails with
DuplicateKey exactly when the cursor returned by `find(row.id)` points
at a cell within its leaf whose key equals `row.id`, and on DuplicateKey
the table is returned unmodified.  (With an internal root the code reads
`num_cells` and the key from the root page instead of the cursor's leaf
— see the counterexample.) -/
theorem execute_insert_duplicate_root_leaf (fuel : Nat) (st : Table) (row : Row)
    (L : LeafPage) (hroot : st.pages st.rootPageNum = Node.leaf L)
    (r : Except ExecuteErr Unit) (st' : Table)
    (hres : executeInsert fuel st row = some (r, st')) :
    (r = .error .duplicateKey ↔
      ∃ c, tableFind fuel st.pages st.rootPageNum row.id = some c ∧
        c.cellNum < L.numCells ∧ (L.cells c.cellNum).key = row.id) ∧
    (r = .error .duplicateKey → st' = st) := by
  have hfind : tableFind fuel st.pages st.rootPageNum row.id =
      some { pageNum := st.rootPageNum
             cellNum := leafFindGo L.cells row.id (L.numCells + 1) 0 L.numCells
             endOfTable := false } := by
    unfold tableFind leafNodeFind
    rw [hroot]
  unfold executeInsert at hres
  rw [hfind, hroot] at hres
  simp only [rootNumCellsBytes, rootLeafKeyBytes] at hres
  by_cases hcond : leafFindGo L.cells row.id (L.numCells + 1) 0 L.numCells <
      L.numCells ∧
      (L.cells (leafFindGo L.cells row.id (L.numCells + 1) 0 L.numCells)).key =
        row.id
  · rw [if_pos hcond] at hres
    have h2 := Option.some.inj hres
    have hr := congrArg Prod.fst h2
    have hst := congrArg Prod.snd h2
    refine ⟨⟨fun _ => ⟨_, hfind, hcond.1, hcond.2⟩, fun _ => hr.symm⟩,
      fun _ => hst.symm⟩
  · rw [if_neg hcond] at hres
    have hr : r = .ok () := by
      cases hins : leafNodeInsert st
          { pageNum := st.rootPageNum
            cellNum := leafFindGo L.cells row.id (L.numCells + 1) 0 L.numCells
            endOfTable := false } row.id row with
      | none => rw [hins] at hres; exact absurd hres (by simp)
      | some st1 =>
        rw [hins] at hres
        simp only [Option.map_some'] at hres
        exact (congrArg Prod.fst (Option.some.inj hres)).symm
    constructor
    · constructor
      · intro hrr
        rw [hr] at hrr
        exact absurd hrr (by simp)
      · intro hex
        obtain ⟨c, hc, h1, h2⟩ := hex
        rw [hfind] at hc
        have hceq := Option.some.inj hc
        rw [← hceq] at h1 h2
        exact absurd ⟨h1, h2⟩ hcond
    · intro hrr
      rw [hr] at hrr
      exact absurd hrr (by simp)

/-- A one-leaf root table holding key 1. -/
def leafW5 : LeafPage :=
  { isRoot := true, parent := 0, numCells := 1, nextLeaf := 0
    cells := fun i => if i = 0 then { key := 1, value := zeroRow }
      else { key := 0, value := zeroRow } }

def tableW5 : Table :=
  { rootPageNum := 0, numPages := 1
    pages := fun n => if n = 0 then Node.leaf leafW5 else Node.leaf initLeafNode }

def rowW5 : Row := { id := 1, username := [], email := [] }

/-- Witness for C5 (amended): inserting id 1 into the one-leaf table
holding key 1 is refused as a duplicate with the table unchanged. -/
theorem execute_insert_duplicate_root_leaf_witness :
    (tableW5.pages tableW5.rootPageNum = Node.leaf leafW5) ∧
    (((Except.error ExecuteErr.duplicateKey : Except ExecuteErr Unit) =
        .error .duplicateKey ↔
      ∃ c, tableFind 1 tableW5.pages tableW5.rootPageNum rowW5.id = some c ∧
        c.cellNum < leafW5.numCells ∧
        (leafW5.cells c.cellNum).key = rowW5.id) ∧
    ((Except.error ExecuteErr.duplicateKey : Except ExecuteErr Unit) =
        .error .duplicateKey → tableW5 = tableW5)) :=
  ⟨rfl, execute_insert_duplicate_root_leaf 1 tableW5 rowW5 leafW5 rfl
    (.error .duplicateKey) tableW5 rfl⟩

/-- Left leaf (page 1) holding key 1, right leaf (page 2) holding keys
2 and 3, under an internal root with one key. -/
def leafX1 : LeafPage :=
  { isRoot := false, parent := 0, numCells := 1, nextLeaf := 2
    cells := fun i => if i = 0 then { key := 1, value := zeroRow }
      else { key := 0, value := zeroRow } }

def leafX2 : LeafPage :=
  { isRoot := false, parent := 0, numCells := 2, nextLeaf := 0
    cells := fun i => if i = 0 then { key := 2, value := zeroRow }
      else if i = 1 then { key := 3, value := zeroRow }
      else { key := 0, value := zeroRow } }

def tableX : Table :=
  { rootPageNum := 0, numPages := 3
    pages := fun n =>
      if n = 1 then Node.leaf leafX1
      else if n = 2 then Node.leaf leafX2
      else Node.internal
        { isRoot := true, parent := 0, numKeys := 1, rightChild := 2
          cells := fun j => if j = 0 then { child := 1, key := 1 }
            else { child := 0, key := 0 } } }

def rowX : Row := { id := 3, username := [], email := [] }

/-- C5 counterexample.  With the internal root of `tableX`, inserting id
3 — whose key already sits at cell 1 of the cursor's leaf (page 2, which
has 2 cells) — succeeds with `Ok` instead of failing with DuplicateKey:
the code checks `cell_num < num_cells` against the ROOT page's count
field (1, the root's `num_keys`), so the duplicate is missed.  This
refutes the claim's "fails with DuplicateKey if and only if the cursor
points at an equal key within its leaf". -/
theorem execute_insert_duplicate_counterexample :
    (executeInsert 2 tableX rowX).map Prod.fst = some (.ok ()) ∧
    (tableFind 2 tableX.pages tableX.rootPageNum rowX.id).map
      (fun c => (c.pageNum, c.cellNum)) = some (2, 1) ∧
    (1 : Nat) < leafX2.numCells ∧ (leafX2.cells 1).key = rowX.id := by
  refine ⟨rfl, by decide, by decide, rfl⟩

/-- A concrete well-formed row and a concrete 291-byte buffer. -/
def rowW9 : Row :=
  { id := 5, username := List.replicate 32 7, email := List.replicate 255 9 }

def bufW9 : List Nat := List.replicate 291 1

set_option maxRecDepth 8192 in
/-- Witness for C9 at the concrete row and buffer. -/
theorem row_serialize_round_trip_witness :
    (rowW9.id < 2 ^ 32 ∧ rowW9.username.length = USERNAME_SIZE ∧
      rowW9.email.length = EMAIL_SIZE ∧ bufW9.length = ROW_SIZE ∧
      (∀ x ∈ bufW9, x < 256)) ∧
    (Row.deserialize rowW9.serialize = rowW9 ∧
      (Row.deserialize bufW9).serialize = bufW9) :=
  ⟨⟨by decide, by decide, by decide, by decide, by decide⟩,
    row_serialize_round_trip rowW9 bufW9 (by decide) (by decide) (by decide)
      (by decide) (by decide)⟩
